import Mathlib

/-!
Verification development for the aipim CLI core: the hash signer, the path
guard, the project scanner, the diagnostics engine, the update engine and the
task id allocator.  Text content is embedded as `List Char`; a POSIX path is
likewise a `List Char`, with roots and working directories taken to be
absolute paths (as produced by `process.cwd()`).  The SHA-256 digest function
is abstracted as a parameter `hash : List Char → List Char`; the development
only uses that it is a function (determinism) and that its output is a 64
character lowercase hex string, which is true of `crypto.createHash('sha256')
.digest('hex')`.
-/

namespace Aipim

/-- The four file classifications from `src/core/signature.ts`
(`export type FileStatus = 'pristine' | 'modified' | 'legacy' | 'missing'`). -/
inductive FileStatus
| pristine
| modified
| legacy
| missing
deriving DecidableEq, Repr

/-- Whitespace as trimmed by JavaScript `String.prototype.trim` (restricted to
the ASCII whitespace appearing in markdown content). -/
def isWs (c : Char) : Bool :=
  c = ' ' || c = '\n' || c = '\t' || c = '\r'

/-- Drop leading whitespace. -/
def trimLeft (l : List Char) : List Char := l.dropWhile isWs

/-- Drop trailing whitespace. -/
def trimRight (l : List Char) : List Char := (l.reverse.dropWhile isWs).reverse

/-- `content.trim()` of JavaScript. -/
def trimChars (l : List Char) : List Char := trimLeft (trimRight l)

/-- Split a character list at every occurrence of `sep` (the separators are
not kept; `n` separators produce `n+1` groups, as `String.split` does). -/
def splitOnChar (sep : Char) : List Char → List (List Char)
| [] => [[]]
| c :: rest =>
  if c = sep then [] :: splitOnChar sep rest
  else
    match splitOnChar sep rest with
    | [] => [[c]]
    | g :: gs => (c :: g) :: gs

/-- Join groups with a separator character (inverse of `splitOnChar`). -/
def joinChar (sep : Char) : List (List Char) → List Char
| [] => []
| [g] => g
| g :: gs => g ++ sep :: joinChar sep gs

/-! ### Hash signer

`src/core/signature.ts` is not among the recovered sources; its `sign` and
`verify` bodies are embedded from the verbatim excerpt in ADR-007
("Use SHA-256 for File Integrity Verification") and the helpers
`extractMetadata` / `stripMetadata` / `calculateHash`, which the excerpt
names but does not show, are modelled from the spec (section 4.1): a marker
line carries a 64-hex-char digest, `verify` returns `legacy` when no
(well-formed) signature marker line is found, and otherwise strips the marker
lines, trims, re-hashes and compares. -/

/-- The leading characters of a signature marker line
(`<!-- @aipim-signature: <hash> -->`). -/
def sigHead : List Char := "<!-- @aipim-signature: ".data

/-- The trailing characters of a marker line. -/
def sigTail : List Char := " -->".data

/-- The leading characters of a version marker line
(`<!-- @aipim-version: <semver> -->`). -/
def verHead : List Char := "<!-- @aipim-version: ".data

/-- Lowercase hexadecimal digit, as produced by `digest('hex')`. -/
def isHexDigit (c : Char) : Bool :=
  ('0' ≤ c && c ≤ '9') || ('a' ≤ c && c ≤ 'f')

/-- Modelled from the spec: a well-formed signature marker line — the marker
head, exactly 64 hex digest characters, and the closing ` -->`.  A line that
merely resembles a marker (wrong length, non-hex digest) is *not* a signature
marker; the regex-based extraction of the source cannot parse it. -/
def isSigMarker (line : List Char) : Bool :=
  decide (line.length = sigHead.length + 64 + sigTail.length) &&
  sigHead.isPrefixOf line &&
  sigTail.isSuffixOf line &&
  ((line.drop sigHead.length).take 64).all isHexDigit

/-- Modelled from the spec: a version marker line. -/
def isVerMarker (line : List Char) : Bool :=
  verHead.isPrefixOf line && sigTail.isSuffixOf line

/-- A line is one of the two marker lines. -/
def isMarkerLine (line : List Char) : Bool :=
  isSigMarker line || isVerMarker line

/-- The digest embedded in a well-formed signature marker line. -/
def digestOf (line : List Char) : List Char :=
  (line.drop sigHead.length).take 64

/-- The full signature marker line for a digest. -/
def sigLine (digest : List Char) : List Char := sigHead ++ digest ++ sigTail

/-- The full version marker line for a version string. -/
def verLine (version : List Char) : List Char := verHead ++ version ++ sigTail

/-- `SignatureManager.sign`, from the ADR-007 excerpt: hash the trimmed
content and append the two marker lines and a final newline:
`` `${content}\n<!-- @aipim-signature: ${hash} -->\n<!-- @aipim-version: ${version} -->\n` ``. -/
def sign (hash : List Char → List Char) (version content : List Char) : List Char :=
  content ++ '\n' :: (sigLine (hash (trimChars content)) ++ '\n' :: (verLine version ++ ['\n']))

/-- Modelled from the spec: `stripMetadata` removes the marker lines from the
content (the remaining lines are rejoined unchanged). -/
def stripMetadata (content : List Char) : List Char :=
  joinChar '\n' ((splitOnChar '\n' content).filter (fun l => !isMarkerLine l))

/-- Modelled from the spec: `extractMetadata` finds the (first) well-formed
signature marker line and returns its embedded digest; `none` when there is
no parseable signature marker. -/
def extractSignature (content : List Char) : Option (List Char) :=
  ((splitOnChar '\n' content).find? isSigMarker).map digestOf

/-- `SignatureManager.verify`, from the ADR-007 excerpt combined with the
spec's `legacy` rule: no parseable signature marker means `legacy`; otherwise
strip the markers, trim, re-hash, and compare with the embedded digest. -/
def verify (hash : List Char → List Char) (content : List Char) : FileStatus :=
  match extractSignature content with
  | none => .legacy
  | some embedded =>
    if hash (trimChars (stripMetadata content)) = embedded then .pristine else .modified

/-! ### Path guard

Embeds `validatePath` / `validatePathSafe` from `src/utils/path-validator.ts`
together with the POSIX semantics of the Node `path` functions they call
(`path.resolve`, `path.relative`, `path.isAbsolute`, and `path.join` as used
by the callers).  Working directories and project roots are absolute paths. -/

/-- A POSIX path is absolute when it starts with a slash. -/
def isAbsolutePath (p : List Char) : Bool :=
  match p with
  | '/' :: _ => true
  | _ => false

/-- The raw segments of a path: split on slashes, empty pieces dropped. -/
def rawSegs (p : List Char) : List (List Char) :=
  (splitOnChar '/' p).filter (fun s => !s.isEmpty)

/-- One normalization step for an absolute path: `.` is dropped, `..` pops
the last segment (and is dropped at the root, as `path.resolve` does for
absolute paths), anything else is kept. -/
def normStep (stack : List (List Char)) (seg : List Char) : List (List Char) :=
  if seg = ".".data then stack
  else if seg = "..".data then stack.dropLast
  else stack ++ [seg]

/-- Normalized segment list of an absolute path. -/
def normSegsAbs (segs : List (List Char)) : List (List Char) :=
  segs.foldl normStep []

/-- Render a segment list as an absolute path. -/
def segsToAbs (segs : List (List Char)) : List Char :=
  '/' :: joinChar '/' segs

/-- The normalized segments of an absolute path. -/
def segsOf (p : List Char) : List (List Char) :=
  normSegsAbs (rawSegs p)

/-- `path.resolve(base, target)` with `base` absolute: an absolute `target`
wins, a relative one is appended to `base`; the result is normalized. -/
def resolveFrom (base target : List Char) : List Char :=
  if isAbsolutePath target then segsToAbs (segsOf target)
  else segsToAbs (segsOf (base ++ '/' :: target))

/-- `path.join(a, b)` for an absolute `a`: concatenate and normalize. -/
def pathJoin (a b : List Char) : List Char :=
  segsToAbs (normSegsAbs (rawSegs a ++ rawSegs b))

/-- Length of the longest common leading run of two segment lists. -/
def commonLen : List (List Char) → List (List Char) → Nat
| a :: as, b :: bs => if a = b then commonLen as bs + 1 else 0
| _, _ => 0

/-- `path.relative(fromP, toP)` for absolute paths: normalize both, strip the
common leading segments, then one `..` per remaining segment of `fromP`
followed by the remaining segments of `toP`. -/
def nodeRelative (fromP toP : List Char) : List Char :=
  let fs := segsOf fromP
  let ts := segsOf toP
  let c := commonLen fs ts
  joinChar '/' (List.replicate (fs.length - c) "..".data ++ ts.drop c)

/-- The target's resolved segments extend the base's: the target is the base
itself or lies below it. -/
def isDescendant (base target : List Char) : Bool :=
  (segsOf base).isPrefixOf (segsOf target)

/-- `SecurityError` of `src/utils/path-validator.ts`. -/
structure SecurityError where
  message : List Char
deriving DecidableEq, Repr

/-- The escape test of `validatePath`, verbatim from the source:
`relative && (relative.startsWith('..') || path.isAbsolute(relative))`. -/
def escapeCheck (rel : List Char) : Bool :=
  !rel.isEmpty && ("..".data.isPrefixOf rel || isAbsolutePath rel)

/-- `validatePath(targetPath, basePath)` from `src/utils/path-validator.ts`
(`cwd` stands for `process.cwd()`, the default `basePath` and the base
against which a relative `basePath` is made absolute by `path.resolve`). -/
def validatePath (cwd targetPath basePath : List Char) : Except SecurityError (List Char) :=
  let resolvedBase := resolveFrom cwd basePath
  let resolvedTarget := resolveFrom resolvedBase targetPath
  let rel := nodeRelative resolvedBase resolvedTarget
  if escapeCheck rel then
    .error ⟨"Path traversal detected: ".data ++ targetPath ++ " escapes ".data ++ basePath⟩
  else
    .ok resolvedTarget

/-- The filesystem as the pure snapshot the read-only operations consult:
existence, text contents (`none` models a read error), the execute bit,
whether `lstat` reports a symbolic link, and `fs.realpath`. -/
structure FileSystem where
  pathExists : List Char → Bool
  readFile : List Char → Option (List Char)
  isExec : List Char → Bool
  lstatSymlink : List Char → Bool
  realPath : List Char → List Char

/-- `validatePathSafe(targetPath, basePath)` from
`src/utils/path-validator.ts`: validate, then — when the path exists and
`lstat` reports a symlink — re-validate the real path against the resolved
base with the same escape test; a non-existent path (`ENOENT`) is returned
validated but unresolved. -/
def validatePathSafe (cwd : List Char) (fs : FileSystem) (targetPath basePath : List Char) :
    Except SecurityError (List Char) :=
  match validatePath cwd targetPath basePath with
  | .error e => .error e
  | .ok validPath =>
    if fs.pathExists validPath then
      if fs.lstatSymlink validPath then
        let realP := fs.realPath validPath
        let resolvedBase := resolveFrom cwd basePath
        if escapeCheck (nodeRelative resolvedBase realP) then
          .error ⟨"Symlink ".data ++ targetPath ++ " points outside project: ".data ++ realP⟩
        else .ok realP
      else .ok validPath
    else .ok validPath

/-! ### Project scanner — `src/core/scanner.ts` -/

/-- `FILES.PROJECT_DIR`.  Modelled from the spec: `src/constants.ts` is not
among the recovered sources; the managed directory is the dotted `.project`
directory (README structure section, tests). -/
def projectDirName : List Char := ".project".data

/-- `FileScanResult` of `src/core/scanner.ts`. -/
structure FileScanResult where
  path : List Char
  relativePath : List Char
  status : FileStatus
deriving DecidableEq, Repr

/-- The default target list of `ProjectScanner.scan`. -/
def defaultTargets : List (List Char) :=
  ["CLAUDE.md".data, "GEMINI.md".data, "CHATGPT.md".data] ++
    ["backlog.md".data, "decisions.md".data, "completed.md".data].map
      (fun f => projectDirName ++ '/' :: f)

/-- The body of the per-target task in `ProjectScanner.scan`: join, guard
(a guard failure is reported as `missing` with the unguarded joined path),
then classify — absent is `missing`, a read error is `legacy`, text content
is classified by `signatureManager.verify`. -/
def scanOne (cwd : List Char) (hash : List Char → List Char) (fs : FileSystem)
    (projectRoot relativePath : List Char) : FileScanResult :=
  let joined := pathJoin projectRoot relativePath
  match validatePath cwd joined projectRoot with
  | .error _ => ⟨joined, relativePath, .missing⟩
  | .ok absolutePath =>
    if fs.pathExists absolutePath then
      match fs.readFile absolutePath with
      | some content => ⟨absolutePath, relativePath, verify hash content⟩
      | none => ⟨absolutePath, relativePath, .legacy⟩
    else ⟨absolutePath, relativePath, .missing⟩

/-- `ProjectScanner.scan(projectRoot, filesToScan?)`: every target is mapped
to its result; `Promise.all` keeps the results positionally aligned with the
targets. -/
def scan (cwd : List Char) (hash : List Char → List Char) (fs : FileSystem)
    (projectRoot : List Char) (filesToScan : Option (List (List Char))) : List FileScanResult :=
  (filesToScan.getD defaultTargets).map (scanOne cwd hash fs projectRoot)

/-- The interleaved execution of one `scan` call: the per-target tasks finish
in the arbitrary order `order` (an `i` out of range contributes nothing), and
`Promise.all` then assembles the results by target index, not by completion
rank.  Position `i` of the output is the completed result for target `i`. -/
def scanWithCompletionOrder (cwd : List Char) (hash : List Char → List Char) (fs : FileSystem)
    (projectRoot : List Char) (targets : List (List Char)) (order : List Nat) :
    List (Option FileScanResult) :=
  let completed : List (Nat × FileScanResult) :=
    order.filterMap (fun i =>
      (targets.get? i).map (fun t => (i, scanOne cwd hash fs projectRoot t)))
  (List.range targets.length).map (fun i => completed.lookup i)

/-! ### Diagnostics engine — `src/core/doctor.ts` -/

/-- The status of one check record. -/
inductive CheckStatus
| pass
| fail
| warn
deriving DecidableEq, Repr

/-- `CheckResult` of `src/core/doctor.ts`. -/
structure CheckResult where
  id : List Char
  name : List Char
  status : CheckStatus
  message : List Char
deriving DecidableEq, Repr

/-- `PROJECT_STRUCTURE`.  Modelled from the spec: `src/constants.ts` is not
among the recovered sources; the required subdirectories of the managed root
are those of the README structure section. -/
def projectStructure : List (List Char) :=
  ["backlog".data, "completed".data, "decisions".data, "scripts".data]

/-- The maintenance scripts checked by `Doctor.checkPermissions`. -/
def doctorScripts : List (List Char) :=
  ["pre-session.sh".data, "validate-dod.sh".data]

/-- `Doctor.checkStructure(projectDir)`: guard the directory (with the
default base `process.cwd()` — a guard failure propagates), then `fail` when
the managed root is absent, `warn` naming the missing required
subdirectories, and `pass` otherwise. -/
def checkStructure (cwd : List Char) (fs : FileSystem) (projectDir : List Char) :
    Except SecurityError CheckResult :=
  match validatePath cwd projectDir cwd with
  | .error e => .error e
  | .ok safeProjectDir =>
    if !fs.pathExists safeProjectDir then
      .ok ⟨"structure".data, "Project Structure".data, .fail, ".project directory missing".data⟩
    else
      let missingDirs := projectStructure.filter (fun d => !fs.pathExists (pathJoin safeProjectDir d))
      if !missingDirs.isEmpty then
        .ok ⟨"structure".data, "Project Structure".data, .warn,
          "Missing directories: ".data ++ joinChar ',' missingDirs⟩
      else
        .ok ⟨"structure".data, "Project Structure".data, .pass,
          "Directory structure is valid".data⟩

/-- `Doctor.checkPermissions(root)`: on Windows a single `pass` record;
otherwise one record per *existing* maintenance script, `pass` or `fail` by
its execute bit (absent scripts contribute nothing). -/
def checkPermissions (fs : FileSystem) (root : List Char) (isWin32 : Bool) : List CheckResult :=
  if isWin32 then
    [⟨"permissions".data, "Script Permissions".data, .pass,
      "Skipped execution check on Windows".data⟩]
  else
    doctorScripts.filterMap (fun script =>
      let scriptPath := pathJoin (pathJoin (pathJoin root projectDirName) "scripts".data) script
      if fs.pathExists scriptPath then
        if fs.isExec scriptPath then
          some ⟨"perm-".data ++ script, "Permission: ".data ++ script, .pass,
            "Executable bit set".data⟩
        else
          some ⟨"perm-".data ++ script, "Permission: ".data ++ script, .fail,
            "Script is not executable (run chmod +x)".data⟩
      else none)

/-- `Doctor.checkIntegrity(root)`: scan the default targets; any `legacy`
file gives a single `warn`, else any `modified` file gives a `pass` noting
the customization count, else `pass`. -/
def checkIntegrity (cwd : List Char) (hash : List Char → List Char) (fs : FileSystem)
    (root : List Char) : CheckResult :=
  let scanResults := scan cwd hash fs root none
  let modifiedN := (scanResults.filter (fun r => r.status = .modified)).length
  let legacyN := (scanResults.filter (fun r => r.status = .legacy)).length
  if legacyN > 0 then
    ⟨"integrity".data, "Project Integrity".data, .warn,
      (Nat.repr legacyN).data ++ " legacy file(s) detected (no signature). Run update to migrate.".data⟩
  else if modifiedN > 0 then
    ⟨"integrity".data, "Project Integrity".data, .pass,
      "Valid structure (".data ++ (Nat.repr modifiedN).data ++ " user customizations found)".data⟩
  else
    ⟨"integrity".data, "Project Integrity".data, .pass,
      "All files match official templates".data⟩

/-- `Doctor.diagnose(projectRoot)`: the structure record, then the
permission records, then the integrity record; an error thrown by
`checkStructure`'s path guard propagates (the remaining checks never run). -/
def diagnose (cwd : List Char) (hash : List Char → List Char) (fs : FileSystem)
    (projectRoot : List Char) (isWin32 : Bool) : Except SecurityError (List CheckResult) :=
  match checkStructure cwd fs (pathJoin projectRoot projectDirName) with
  | .error e => .error e
  | .ok structureRec =>
    .ok (structureRec :: (checkPermissions fs projectRoot isWin32 ++
      [checkIntegrity cwd hash fs projectRoot]))

/-! ### Task id allocator — `src/core/task-manager.ts`

The file itself is not among the recovered sources; `getNextTaskId` and
`initTask` are embedded from the verbatim "current implementation" excerpts
in `.project/backlog/2026-01-25-TASK-006-fix-task-id-race-condition.md`
(which cites them as `src/core/task-manager.ts:77-88`): the id is parsed
from the backlog filenames with the pattern `^TASK-(\d+)-` (0 for a
non-match), the
candidates are sorted descending and the head is incremented and padded, and
`initTask` claims the filename with a plain, non-exclusive `fs.writeFile`. -/

/-- Decimal value of a digit run (`parseInt` on the matched group). -/
def digitsToNat (ds : List Char) : Nat :=
  ds.foldl (fun n c => n * 10 + (c.toNat - '0'.toNat)) 0

/-- The numeric id a backlog filename contributes: the digits of a
`^TASK-(\d+)-` match, and 0 when the pattern does not match. -/
def parseTaskId (name : List Char) : Nat :=
  match name with
  | 'T' :: 'A' :: 'S' :: 'K' :: '-' :: rest =>
    let ds := rest.takeWhile Char.isDigit
    if ds.isEmpty then 0
    else
      match rest.drop ds.length with
      | '-' :: _ => digitsToNat ds
      | _ => 0
  | _ => 0

/-- `padStart(3, '0')` on the decimal rendering of a number. -/
def padStart3 (n : Nat) : List Char :=
  let s := (Nat.repr n).data
  List.replicate (3 - s.length) '0' ++ s

/-- `TaskManager.getNextTaskId` (current implementation): map the backlog
filenames through the pattern, sort descending, take the head (0 when
empty), add one and zero-pad to three digits. -/
def getNextTaskId (files : List (List Char)) : List Char :=
  let ids := (files.map parseTaskId).insertionSort (fun a b => a ≥ b)
  padStart3 (ids.headD 0 + 1)

/-- The task filename `TASK-<id>-<slug>.md`. -/
def taskFilename (id slug : List Char) : List Char :=
  "TASK-".data ++ id ++ '-' :: slug ++ ".md".data

/-- A backlog directory as a pure snapshot: filenames with their contents. -/
abbrev BacklogDir : Type := List (List Char × List Char)

/-- A plain `fs.writeFile` (no `wx` flag): overwrite when the name exists,
create otherwise. -/
def writeFilePlain (dir : BacklogDir) (name content : List Char) : BacklogDir :=
  if (dir.map Prod.fst).contains name then
    dir.map (fun e => if e.1 = name then (name, content) else e)
  else dir ++ [(name, content)]

/-- `TaskManager.initTask` (current implementation): read the directory for
the next id, then write the task file with a plain, non-exclusive write.
Returns the allocated id and the new directory state. -/
def initTask (dir : BacklogDir) (slug content : List Char) : List Char × BacklogDir :=
  let id := getNextTaskId (dir.map Prod.fst)
  (id, writeFilePlain dir (taskFilename id slug) content)

/-- Two concurrent `initTask` calls under the interleaving in which both
directory reads complete before either write (the TOCTOU window named by
TASK-006): both compute their id from the same listing, then the writes land
one after the other.  Returns both ids and the final directory. -/
def twoConcurrentInitTask (dir : BacklogDir) (slugA contentA slugB contentB : List Char) :
    (List Char × List Char) × BacklogDir :=
  let idA := getNextTaskId (dir.map Prod.fst)
  let idB := getNextTaskId (dir.map Prod.fst)
  let dir1 := writeFilePlain dir (taskFilename idA slugA) contentA
  let dir2 := writeFilePlain dir1 (taskFilename idB slugB) contentB
  ((idA, idB), dir2)

/-! ### Update engine

`src/core/updater.ts` is not among the recovered sources (only its callers
and end-to-end tests are); the per-target policy is modelled from the spec
(section 4.5). -/

/-- The per-file verdict of the update engine. -/
inductive UpdateDecision
| created
| updated
| skipped
| errored
deriving DecidableEq, Repr

/-- Write a text file into the filesystem snapshot. -/
def FileSystem.writeFile (fs : FileSystem) (p content : List Char) : FileSystem :=
  { fs with
    pathExists := fun q => q = p || fs.pathExists q,
    readFile := fun q => if q = p then some content else fs.readFile q }

/-- Modelled from the spec: the update engine's action on one target, driven
by the scanner's classification — `missing` is created, `pristine` is
overwritten, `modified` and `legacy` are skipped under the default policy
and overwritten only under the explicit force-overwrite flag; fresh content
is always signed.  Returns the filesystem after the action and the reported
decision. -/
def updateOne (cwd : List Char) (hash : List Char → List Char) (version : List Char)
    (force : Bool) (fs : FileSystem) (projectRoot relativePath newContent : List Char) :
    FileSystem × UpdateDecision :=
  let r := scanOne cwd hash fs projectRoot relativePath
  match r.status with
  | .missing => (fs.writeFile r.path (sign hash version newContent), .created)
  | .pristine => (fs.writeFile r.path (sign hash version newContent), .updated)
  | .modified =>
    if force then (fs.writeFile r.path (sign hash version newContent), .updated)
    else (fs, .skipped)
  | .legacy =>
    if force then (fs.writeFile r.path (sign hash version newContent), .updated)
    else (fs, .skipped)

/-- The segments by which the target extends the base. -/
def relSegsAway (base target : List Char) : List (List Char) :=
  (segsOf target).drop (segsOf base).length

/-- No segment list, or a first segment that does not begin with two dots
(the case the string test `relative.startsWith('..')` cannot tell apart
from a parent-directory step). -/
def noDotsHead : List (List Char) → Bool
| [] => true
| s :: _ => !("..".data.isPrefixOf s)

/-! ## Lemmas: splitting and joining on a separator character -/

theorem splitOnChar_ne_nil (sep : Char) (l : List Char) : splitOnChar sep l ≠ [] := by
  induction l with
  | nil => simp [splitOnChar]
  | cons c rest ih =>
    simp only [splitOnChar]
    split
    · simp
    · cases h : splitOnChar sep rest with
      | nil => simp
      | cons g gs => simp

theorem splitOnChar_of_not_mem (sep : Char) (l : List Char) (h : sep ∉ l) :
    splitOnChar sep l = [l] := by
  induction l with
  | nil => rfl
  | cons c rest ih =>
    simp only [List.mem_cons, not_or] at h
    simp only [splitOnChar]
    rw [if_neg (fun hc => h.1 hc.symm), ih h.2]

theorem splitOnChar_append (sep : Char) (xs ys : List Char) :
    splitOnChar sep (xs ++ sep :: ys) = splitOnChar sep xs ++ splitOnChar sep ys := by
  induction xs with
  | nil => simp [splitOnChar]
  | cons c xs ih =>
    by_cases hc : c = sep
    · subst hc
      simp [splitOnChar, ih]
    · simp only [List.cons_append, splitOnChar, if_neg hc, List.append_eq]
      rw [ih]
      cases h : splitOnChar sep xs with
      | nil => exact absurd h (splitOnChar_ne_nil sep xs)
      | cons g gs => rfl

theorem not_mem_of_mem_splitOnChar (sep : Char) (l g : List Char)
    (hg : g ∈ splitOnChar sep l) : sep ∉ g := by
  induction l generalizing g with
  | nil =>
    simp only [splitOnChar, List.mem_singleton] at hg
    simp [hg]
  | cons c rest ih =>
    simp only [splitOnChar] at hg
    by_cases hc : c = sep
    · rw [if_pos hc] at hg
      rcases List.mem_cons.mp hg with h | h
      · simp [h]
      · exact ih g h
    · rw [if_neg hc] at hg
      cases h : splitOnChar sep rest with
      | nil => exact absurd h (splitOnChar_ne_nil sep rest)
      | cons g1 gs =>
        rw [h] at hg
        rcases List.mem_cons.mp hg with h2 | h2
        · subst h2
          intro hmem
          rcases List.mem_cons.mp hmem with h3 | h3
          · exact hc h3.symm
          · exact ih g1 (h ▸ List.mem_cons_self g1 gs) h3
        · exact ih g (h ▸ List.mem_cons_of_mem g1 h2)

theorem joinChar_cons (sep : Char) (g : List Char) (gs : List (List Char)) (h : gs ≠ []) :
    joinChar sep (g :: gs) = g ++ sep :: joinChar sep gs := by
  cases gs with
  | nil => exact absurd rfl h
  | cons g2 gs2 => rfl

theorem joinChar_cons_cons (sep c : Char) (g : List Char) (gs : List (List Char)) :
    joinChar sep ((c :: g) :: gs) = c :: joinChar sep (g :: gs) := by
  cases gs with
  | nil => rfl
  | cons g2 gs2 => rfl

theorem joinChar_splitOnChar (sep : Char) (l : List Char) :
    joinChar sep (splitOnChar sep l) = l := by
  induction l with
  | nil => rfl
  | cons c rest ih =>
    simp only [splitOnChar]
    by_cases hc : c = sep
    · rw [if_pos hc, joinChar_cons sep [] _ (splitOnChar_ne_nil sep rest), ih, hc]
      rfl
    · rw [if_neg hc]
      cases h : splitOnChar sep rest with
      | nil => exact absurd h (splitOnChar_ne_nil sep rest)
      | cons g gs =>
        rw [joinChar_cons_cons, ← h, ih]

theorem joinChar_append_singleton (sep : Char) (gs : List (List Char)) (a : List Char)
    (h : gs ≠ []) : joinChar sep (gs ++ [a]) = joinChar sep gs ++ sep :: a := by
  induction gs with
  | nil => exact absurd rfl h
  | cons g gs ih =>
    cases gs with
    | nil => rfl
    | cons g2 gs2 =>
      rw [List.cons_append, joinChar_cons sep g _ (by simp),
        joinChar_cons sep g (g2 :: gs2) (by simp), ih (by simp), List.append_assoc,
        List.cons_append]

theorem splitOnChar_joinChar (sep : Char) (gs : List (List Char)) (hne : gs ≠ [])
    (h : ∀ g ∈ gs, sep ∉ g) : splitOnChar sep (joinChar sep gs) = gs := by
  induction gs with
  | nil => exact absurd rfl hne
  | cons g gs ih =>
    cases gs with
    | nil => exact splitOnChar_of_not_mem sep g (h g (by simp))
    | cons g2 gs2 =>
      rw [joinChar_cons sep g _ (by simp), splitOnChar_append,
        splitOnChar_of_not_mem sep g (h g (by simp)),
        ih (by simp) (fun x hx => h x (List.mem_cons_of_mem g hx))]
      rfl

theorem trimChars_append_newline (x : List Char) : trimChars (x ++ ['\n']) = trimChars x := by
  unfold trimChars trimRight
  rw [List.reverse_append]
  simp [isWs]

/-! ## Lemmas: marker lines -/

theorem find?_append_of_forall_neg {α : Type} (p : α → Bool) (A B : List α)
    (h : ∀ a ∈ A, p a = false) : (A ++ B).find? p = B.find? p := by
  induction A with
  | nil => rfl
  | cons a A ih =>
    rw [List.cons_append, List.find?_cons_of_neg _ (by simp [h a (by simp)])]
    exact ih (fun a ha => h a (List.mem_cons_of_mem _ ha))

theorem sigHead_length : sigHead.length = 23 := by decide

theorem isSigMarker_sigLine (d : List Char) (hd : d.length = 64)
    (hx : d.all isHexDigit = true) : isSigMarker (sigLine d) = true := by
  unfold isSigMarker sigLine
  rw [Bool.and_eq_true, Bool.and_eq_true, Bool.and_eq_true]
  refine ⟨⟨⟨?_, ?_⟩, ?_⟩, ?_⟩
  · simp only [decide_eq_true_eq, List.length_append, hd]
  · exact List.isPrefixOf_iff_prefix.mpr ⟨d ++ sigTail, by simp⟩
  · apply List.isSuffixOf_iff_suffix.mpr
    exact ⟨sigHead ++ d, by simp⟩
  · rw [List.append_assoc, List.drop_left, List.take_left' hd]
    exact hx

theorem digestOf_sigLine (d : List Char) (hd : d.length = 64) : digestOf (sigLine d) = d := by
  unfold digestOf sigLine
  rw [List.append_assoc, List.drop_left, List.take_left' hd]

theorem isVerMarker_verLine (v : List Char) : isVerMarker (verLine v) = true := by
  unfold isVerMarker verLine
  rw [Bool.and_eq_true]
  constructor
  · exact List.isPrefixOf_iff_prefix.mpr ⟨v ++ sigTail, by simp⟩
  · apply List.isSuffixOf_iff_suffix.mpr
    exact ⟨verHead ++ v, by simp⟩

theorem newline_not_mem_sigLine (d : List Char) (hx : d.all isHexDigit = true) :
    '\n' ∉ sigLine d := by
  unfold sigLine
  intro hmem
  rcases List.mem_append.mp hmem with h | h
  · rcases List.mem_append.mp h with h2 | h2
    · revert h2
      decide
    · have := List.all_eq_true.mp hx _ h2
      simp [isHexDigit] at this
  · revert h
    decide

theorem newline_not_mem_verLine (v : List Char) (hv : '\n' ∉ v) : '\n' ∉ verLine v := by
  unfold verLine
  intro hmem
  rcases List.mem_append.mp hmem with h | h
  · rcases List.mem_append.mp h with h2 | h2
    · revert h2
      decide
    · exact hv h2
  · revert h
    decide

/-- The lines of a signed text: the lines of the content, the signature
marker, the version marker, and the empty final line. -/
theorem splitOnChar_sign (hash : List Char → List Char) (version x : List Char)
    (hx : (hash (trimChars x)).all isHexDigit = true) (hv : '\n' ∉ version) :
    splitOnChar '\n' (sign hash version x) =
      splitOnChar '\n' x ++ [sigLine (hash (trimChars x)), verLine version, []] := by
  unfold sign
  rw [splitOnChar_append]
  have h2 : verLine version ++ ['\n'] = verLine version ++ '\n' :: [] := rfl
  rw [splitOnChar_append, h2, splitOnChar_append,
    splitOnChar_of_not_mem '\n' _ (newline_not_mem_sigLine _ hx),
    splitOnChar_of_not_mem '\n' _ (newline_not_mem_verLine _ hv)]
  rfl

/-! ## Claims C1 and C2: the signer round-trip and the legacy degradation -/

/-- C1: for every text `x` that contains no marker-like lines, and the
SHA-256 hex digest discipline (64 lowercase hex characters) and a version
string without a newline, verifying the result of signing yields `pristine`
— `verify(sign(x)) = pristine`, including for the empty string. -/
theorem verify_sign_pristine (hash : List Char → List Char) (version x : List Char)
    (hd : (hash (trimChars x)).length = 64)
    (hx : (hash (trimChars x)).all isHexDigit = true)
    (hv : '\n' ∉ version)
    (hm : ∀ l ∈ splitOnChar '\n' x, isMarkerLine l = false) :
    verify hash (sign hash version x) = .pristine := by
  have hsplit := splitOnChar_sign hash version x hx hv
  have hsig : isSigMarker (sigLine (hash (trimChars x))) = true := isSigMarker_sigLine _ hd hx
  have hextract : extractSignature (sign hash version x) = some (hash (trimChars x)) := by
    unfold extractSignature
    rw [hsplit, find?_append_of_forall_neg _ _ _
      (fun l hl => by
        have := hm l hl
        unfold isMarkerLine at this
        exact (Bool.or_eq_false_iff.mp this).1)]
    rw [List.find?_cons_of_pos _ hsig, Option.map_some']
    rw [digestOf_sigLine _ hd]
  have hstrip : stripMetadata (sign hash version x) = x ++ ['\n'] := by
    unfold stripMetadata
    rw [hsplit, List.filter_append]
    have h1 : (splitOnChar '\n' x).filter (fun l => !isMarkerLine l) = splitOnChar '\n' x :=
      List.filter_eq_self.mpr (fun l hl => by simp [hm l hl])
    have h2 : ([sigLine (hash (trimChars x)), verLine version, []].filter
        (fun l => !isMarkerLine l)) = [([] : List Char)] := by
      have hving : isMarkerLine (verLine version) = true := by
        unfold isMarkerLine
        rw [isVerMarker_verLine]
        simp
      have hsiging : isMarkerLine (sigLine (hash (trimChars x))) = true := by
        unfold isMarkerLine
        rw [hsig]
        simp
      simp only [List.filter, hving, hsiging]
      rfl
    rw [h1, h2, joinChar_append_singleton '\n' _ _ (splitOnChar_ne_nil '\n' x),
      joinChar_splitOnChar]
  unfold verify
  rw [hextract, hstrip, trimChars_append_newline]
  simp

/-- C1 witness: a concrete signing round-trip evaluates to `pristine`. -/
theorem verify_sign_pristine_witness :
    ((List.replicate 64 'a').length = 64 ∧ '\n' ∉ "1.1.3".data) ∧
    verify (fun _ => List.replicate 64 'a')
      (sign (fun _ => List.replicate 64 'a') "1.1.3".data "hello world".data) = .pristine :=
  ⟨⟨by decide, by decide⟩,
    verify_sign_pristine (fun _ => List.replicate 64 'a') "1.1.3".data "hello world".data
      (by decide) (by decide) (by decide) (by decide)⟩

/-- C2: for every text with no parseable signature marker line — in
particular any text with no marker lines at all, and any text whose
marker-like lines are malformed or unparseable — `verify` returns `legacy`
(and, being a total function, never throws). -/
theorem verify_without_marker_legacy (hash : List Char → List Char) (x : List Char)
    (h : ∀ l ∈ splitOnChar '\n' x, isSigMarker l = false) :
    verify hash x = .legacy := by
  unfold verify extractSignature
  rw [List.find?_eq_none.mpr (fun l hl => by simp [h l hl])]
  rfl

/-- C2 witness: a plain legacy text and a text with a malformed marker line
(non-hex digest) both verify as `legacy`. -/
theorem verify_without_marker_legacy_witness :
    verify (fun _ => List.replicate 64 'a') "# I am legacy".data = .legacy ∧
    verify (fun _ => List.replicate 64 'a')
      "# x\n<!-- @aipim-signature: nothex -->".data = .legacy := by
  constructor
  · exact verify_without_marker_legacy _ _ (by decide)
  · exact verify_without_marker_legacy _ _ (by decide)

/-! ## Lemmas: path segments, `path.relative`, and the guard condition -/

theorem mem_of_mem_normStep (acc : List (List Char)) (s g : List Char)
    (h : g ∈ normStep acc s) : g ∈ acc ∨ g = s := by
  unfold normStep at h
  split at h
  · exact Or.inl h
  · split at h
    · exact Or.inl (List.dropLast_prefix acc |>.subset h)
    · rcases List.mem_append.mp h with h2 | h2
      · exact Or.inl h2
      · exact Or.inr (List.mem_singleton.mp h2)

theorem mem_of_mem_foldl_normStep (segs : List (List Char)) (acc : List (List Char))
    (g : List Char) (h : g ∈ segs.foldl normStep acc) : g ∈ acc ∨ g ∈ segs := by
  induction segs generalizing acc with
  | nil => exact Or.inl h
  | cons s segs ih =>
    rcases ih (normStep acc s) h with h2 | h2
    · rcases mem_of_mem_normStep acc s g h2 with h3 | h3
      · exact Or.inl h3
      · exact Or.inr (h3 ▸ List.mem_cons_self s segs)
    · exact Or.inr (List.mem_cons_of_mem s h2)

theorem mem_segsOf (p g : List Char) (h : g ∈ segsOf p) : g ≠ [] ∧ '/' ∉ g := by
  unfold segsOf normSegsAbs at h
  rcases mem_of_mem_foldl_normStep _ _ _ h with h2 | h2
  · cases h2
  · unfold rawSegs at h2
    have h3 := List.mem_filter.mp h2
    refine ⟨fun he => by simp [he] at h3, ?_⟩
    exact not_mem_of_mem_splitOnChar '/' p g h3.1

theorem commonLen_le_left (a b : List (List Char)) : commonLen a b ≤ a.length := by
  induction a generalizing b with
  | nil => simp [commonLen]
  | cons x as ih =>
    cases b with
    | nil => simp [commonLen]
    | cons y bs =>
      unfold commonLen
      split
      · exact Nat.succ_le_succ (ih bs)
      · exact Nat.zero_le _

theorem commonLen_eq_length_iff (a b : List (List Char)) :
    commonLen a b = a.length ↔ a <+: b := by
  induction a generalizing b with
  | nil => simp [commonLen]
  | cons x as ih =>
    cases b with
    | nil =>
      simp only [commonLen, List.length_cons]
      constructor
      · intro h
        cases h
      · intro h
        have := h.length_le
        simp at this
    | cons y bs =>
      unfold commonLen
      split
      · rename_i hxy
        subst hxy
        rw [List.length_cons, Nat.succ_inj, ih bs, List.cons_prefix_cons]
        simp
      · rename_i hxy
        constructor
        · intro h
          cases h
        · intro h
          exact absurd (List.cons_prefix_cons.mp h).1 hxy

theorem dotdot_isPrefixOf_join (rest : List (List Char)) :
    "..".data.isPrefixOf (joinChar '/' ("..".data :: rest)) = true := by
  apply List.isPrefixOf_iff_prefix.mpr
  cases rest with
  | nil => exact List.prefix_rfl
  | cons g gs =>
    rw [joinChar_cons _ _ _ (by simp)]
    exact List.prefix_append _ _

theorem escapeCheck_true_of_not_prefix (a b : List Char)
    (h : ¬ (segsOf a <+: segsOf b)) : escapeCheck (nodeRelative a b) = true := by
  unfold nodeRelative
  dsimp only
  have hlt : commonLen (segsOf a) (segsOf b) < (segsOf a).length :=
    Nat.lt_of_le_of_ne (commonLen_le_left _ _) (fun he => h ((commonLen_eq_length_iff _ _).mp he))
  obtain ⟨k, hk⟩ : ∃ k, (segsOf a).length - commonLen (segsOf a) (segsOf b) = k + 1 :=
    ⟨(segsOf a).length - commonLen (segsOf a) (segsOf b) - 1, by omega⟩
  rw [hk, List.replicate_succ, List.cons_append]
  unfold escapeCheck
  rw [dotdot_isPrefixOf_join]
  have hne : (joinChar '/' ("..".data :: (List.replicate k "..".data ++
      (segsOf b).drop (commonLen (segsOf a) (segsOf b))))).isEmpty = false := by
    cases hrest : List.replicate k "..".data ++ (segsOf b).drop (commonLen (segsOf a) (segsOf b)) with
    | nil => rfl
    | cons g gs =>
      rw [joinChar_cons _ _ _ (by simp)]
      rfl
  rw [hne]
  rfl

theorem validatePath_error_of_not_descendant (cwd t b : List Char)
    (h : isDescendant (resolveFrom cwd b) (resolveFrom (resolveFrom cwd b) t) = false) :
    ∃ e, validatePath cwd t b = .error e := by
  refine ⟨⟨"Path traversal detected: ".data ++ t ++ " escapes ".data ++ b⟩, ?_⟩
  unfold validatePath
  rw [if_pos]
  apply escapeCheck_true_of_not_prefix
  intro hpre
  rw [show isDescendant (resolveFrom cwd b) (resolveFrom (resolveFrom cwd b) t) =
    ((segsOf (resolveFrom cwd b)).isPrefixOf (segsOf (resolveFrom (resolveFrom cwd b) t)))
    from rfl] at h
  rw [List.isPrefixOf_iff_prefix.mpr hpre] at h
  cases h

theorem validatePath_ok_inv (cwd t b p : List Char)
    (h : validatePath cwd t b = .ok p) :
    p = resolveFrom (resolveFrom cwd b) t ∧
      isDescendant (resolveFrom cwd b) (resolveFrom (resolveFrom cwd b) t) = true := by
  unfold validatePath at h
  by_cases hesc : escapeCheck (nodeRelative (resolveFrom cwd b)
      (resolveFrom (resolveFrom cwd b) t)) = true
  · rw [if_pos hesc] at h
    cases h
  · rw [if_neg hesc] at h
    refine ⟨(Except.ok.inj h).symm, ?_⟩
    by_contra hdesc
    apply hesc
    apply escapeCheck_true_of_not_prefix
    intro hpre
    exact hdesc (List.isPrefixOf_iff_prefix.mpr hpre)

/-! ## Claim C3: when `validatePath` raises `SecurityViolation` -/

/-- C3 counterexample: the claim's "raises if and only if the resolved
target is not a descendant of the root" fails — at `targetPath = "..a"`,
`basePath = "/base"` (cwd `/`) the resolved target `/base/..a` *is* a
descendant of `/base`, yet `validatePath` raises, because the source tests
`relative.startsWith('..')` on the relative-path *string* `..a`. -/
theorem validatePath_rejects_descendant_cx :
    Except.isOk (validatePath "/".data "..a".data "/base".data) = false ∧
    isDescendant (resolveFrom "/".data "/base".data)
      (resolveFrom (resolveFrom "/".data "/base".data) "..a".data) = true := by
  constructor
  · decide
  · decide

/-- C3 (amended): `validatePath` raises whenever the candidate resolved
against the root is not a descendant of the root, and whenever it returns it
returns the resolved absolute normalized path, which is a descendant of the
root; but the converse of the first part fails (the string test
`startsWith('..')` also rejects some descendants whose first relative
segment merely begins with two dots, see the counterexample). -/
theorem validatePath_guard_characterization (cwd t b : List Char) :
    (isDescendant (resolveFrom cwd b) (resolveFrom (resolveFrom cwd b) t) = false →
      ∃ e, validatePath cwd t b = .error e) ∧
    (∀ p, validatePath cwd t b = .ok p →
      p = resolveFrom (resolveFrom cwd b) t ∧
        isDescendant (resolveFrom cwd b) (resolveFrom (resolveFrom cwd b) t) = true) :=
  ⟨validatePath_error_of_not_descendant cwd t b,
    fun p hp => validatePath_ok_inv cwd t b p hp⟩

/-- C3 witness: a concrete escaping path is rejected and a concrete inside
path is returned resolved. -/
theorem validatePath_guard_characterization_witness :
    (∃ e, validatePath "/".data "../../etc/passwd".data "/proj".data = .error e) ∧
    ("/base/sub/file.md".data = resolveFrom (resolveFrom "/".data "/base".data) "sub/file.md".data ∧
      isDescendant (resolveFrom "/".data "/base".data)
        (resolveFrom (resolveFrom "/".data "/base".data) "sub/file.md".data) = true) :=
  ⟨(validatePath_guard_characterization "/".data "../../etc/passwd".data "/proj".data).1
      (by decide),
    (validatePath_guard_characterization "/".data "sub/file.md".data "/base".data).2
      "/base/sub/file.md".data (by rfl)⟩

/-! ## Claim C4: the scanner classifies traversal targets as `missing` -/

theorem scan_length (cwd : List Char) (hash : List Char → List Char) (fs : FileSystem)
    (root : List Char) (ts : List (List Char)) :
    (scan cwd hash fs root (some ts)).length = ts.length := by
  simp [scan]

/-- C4: for every target list and every position whose target's resolution
escapes the project root, `scan` classifies that entry as `missing` in
place; the guard error is consumed inside the per-target task (`scan` is a
total function and throws for no target). -/
theorem scan_traversal_missing (cwd : List Char) (hash : List Char → List Char)
    (fs : FileSystem) (root : List Char) (ts : List (List Char)) (i : Nat)
    (hi : i < ts.length)
    (hesc : isDescendant (resolveFrom cwd root)
      (resolveFrom (resolveFrom cwd root) (pathJoin root (ts.get ⟨i, hi⟩))) = false) :
    ((scan cwd hash fs root (some ts)).get
      ⟨i, (scan_length cwd hash fs root ts).symm ▸ hi⟩).status = .missing := by
  have hmap : (scan cwd hash fs root (some ts)).get
      ⟨i, (scan_length cwd hash fs root ts).symm ▸ hi⟩ =
      scanOne cwd hash fs root (ts.get ⟨i, hi⟩) := by
    simp [scan, List.get_eq_getElem, List.getElem_map]
  rw [hmap]
  unfold scanOne
  dsimp only
  obtain ⟨e, he⟩ := validatePath_error_of_not_descendant cwd (pathJoin root (ts.get ⟨i, hi⟩)) root hesc
  rw [he]

/-- C4 witness: the target `../../etc/passwd` escapes `/proj` and its scan
entry is `missing`. -/
theorem scan_traversal_missing_witness :
    isDescendant (resolveFrom "/".data "/proj".data)
      (resolveFrom (resolveFrom "/".data "/proj".data)
        (pathJoin "/proj".data "../../etc/passwd".data)) = false ∧
    ((scan "/".data (fun _ => List.replicate 64 'a')
      ⟨fun _ => false, fun _ => none, fun _ => false, fun _ => false, fun p => p⟩
      "/proj".data (some ["../../etc/passwd".data])).get ⟨0, by decide⟩).status = .missing :=
  ⟨by decide,
    scan_traversal_missing "/".data (fun _ => List.replicate 64 'a')
      ⟨fun _ => false, fun _ => none, fun _ => false, fun _ => false, fun p => p⟩
      "/proj".data ["../../etc/passwd".data] 0 (by decide) (by decide)⟩

/-! ## Claim C5: results are positionally stable under any completion order -/

theorem scanOne_relativePath (cwd : List Char) (hash : List Char → List Char)
    (fs : FileSystem) (root rel : List Char) :
    (scanOne cwd hash fs root rel).relativePath = rel := by
  unfold scanOne
  dsimp only
  cases validatePath cwd (pathJoin root rel) root with
  | error e => rfl
  | ok p =>
    dsimp only
    by_cases hpe : fs.pathExists p = true
    · rw [if_pos hpe]
      cases fs.readFile p with
      | none => rfl
      | some c => rfl
    · rw [if_neg hpe]

theorem scan_getElem (cwd : List Char) (hash : List Char → List Char) (fs : FileSystem)
    (root : List Char) (ts : List (List Char)) (i : Nat) (hi : i < ts.length) :
    (scan cwd hash fs root (some ts)).get
      ⟨i, (scan_length cwd hash fs root ts).symm ▸ hi⟩ =
      scanOne cwd hash fs root (ts.get ⟨i, hi⟩) := by
  simp [scan, List.get_eq_getElem, List.getElem_map]

theorem lookup_completed (cwd : List Char) (hash : List Char → List Char) (fs : FileSystem)
    (root : List Char) (ts : List (List Char)) (order : List Nat) (i : Nat)
    (hi : i < ts.length) (hmem : i ∈ order) :
    (order.filterMap (fun j =>
      (ts.get? j).map (fun t => (j, scanOne cwd hash fs root t)))).lookup i =
      some (scanOne cwd hash fs root (ts.get ⟨i, hi⟩)) := by
  induction order with
  | nil => cases hmem
  | cons j rest ih =>
    by_cases hj : j = i
    · subst hj
      rw [List.filterMap_cons, List.get?_eq_get hi, Option.map_some']
      simp [List.lookup]
    · rw [List.filterMap_cons]
      cases hg : ts.get? j with
      | none =>
        exact ih (by rcases List.mem_cons.mp hmem with h | h; exact absurd h.symm hj; exact h)
      | some t =>
        rw [Option.map_some']
        have hne : (i == j) = false := by simp [hj]; exact fun he => hj he.symm
        simp only [List.lookup, hne]
        exact ih (by rcases List.mem_cons.mp hmem with h | h; exact absurd h.symm hj; exact h)

/-- C5: one result per target, each at the position of its target: for any
completion order of the concurrent per-target reads (any permutation of the
target indices), `Promise.all` assembles exactly the positional result list
of `scan`, whose length is the number of targets and whose `i`-th entry is
the result for the `i`-th target. -/
theorem scan_completion_order_stable (cwd : List Char) (hash : List Char → List Char)
    (fs : FileSystem) (root : List Char) (ts : List (List Char)) (order : List Nat)
    (hperm : order.Perm (List.range ts.length)) :
    scanWithCompletionOrder cwd hash fs root ts order =
      (scan cwd hash fs root (some ts)).map some ∧
    (scan cwd hash fs root (some ts)).length = ts.length ∧
    ∀ i, ∀ hi : i < ts.length,
      ((scan cwd hash fs root (some ts)).get
        ⟨i, (scan_length cwd hash fs root ts).symm ▸ hi⟩).relativePath = ts.get ⟨i, hi⟩ := by
  refine ⟨?_, scan_length cwd hash fs root ts, ?_⟩
  · unfold scanWithCompletionOrder
    dsimp only
    apply List.ext_getElem
    · simp [scan]
    · intro i h1 h2
      have hn : i < ts.length := by simpa using h1
      have hmem : i ∈ order := hperm.mem_iff.mpr (List.mem_range.mpr hn)
      rw [List.getElem_map, List.getElem_map, List.getElem_range]
      rw [lookup_completed cwd hash fs root ts order i hn hmem]
      congr 1
      have h3 := scan_getElem cwd hash fs root ts i hn
      rw [List.get_eq_getElem] at h3
      exact h3.symm
  · intro i hi
    rw [scan_getElem cwd hash fs root ts i hi]
    exact scanOne_relativePath cwd hash fs root (ts.get ⟨i, hi⟩)

/-- C5 witness: three targets finished in the order 2, 0, 1 still produce
the positional result list. -/
theorem scan_completion_order_stable_witness :
    ([2, 0, 1].Perm (List.range 3) ∧ (0 : Nat) < 3) ∧
    (scanWithCompletionOrder "/".data (fun _ => List.replicate 64 'a')
      ⟨fun _ => false, fun _ => none, fun _ => false, fun _ => false, fun p => p⟩
      "/proj".data ["a.md".data, "b.md".data, "c.md".data] [2, 0, 1] =
      (scan "/".data (fun _ => List.replicate 64 'a')
        ⟨fun _ => false, fun _ => none, fun _ => false, fun _ => false, fun p => p⟩
        "/proj".data (some ["a.md".data, "b.md".data, "c.md".data])).map some) :=
  ⟨⟨by decide, by decide⟩,
    (scan_completion_order_stable "/".data (fun _ => List.replicate 64 'a')
      ⟨fun _ => false, fun _ => none, fun _ => false, fun _ => false, fun p => p⟩
      "/proj".data ["a.md".data, "b.md".data, "c.md".data] [2, 0, 1] (by decide)).1⟩

/-! ## Claim C10: `validatePathSafe` and symlink resolution -/

theorem isAbsolutePath_cons_ne (c : Char) (l : List Char) (hc : c ≠ '/') :
    isAbsolutePath (c :: l) = false := by
  unfold isAbsolutePath
  split
  · rename_i heq
    injection heq with h1 h2
    exact absurd h1 hc
  · rfl

theorem join_cons_decompose (s : List Char) (rest : List (List Char)) :
    ∃ tail, joinChar '/' (s :: rest) = s ++ tail ∧
      (tail = [] ∨ ∃ r, tail = '/' :: r) := by
  cases rest with
  | nil => exact ⟨[], by simp [joinChar], Or.inl rfl⟩
  | cons g gs =>
    exact ⟨'/' :: joinChar '/' (g :: gs), joinChar_cons '/' s (g :: gs) (by simp),
      Or.inr ⟨joinChar '/' (g :: gs), rfl⟩⟩

theorem escapeCheck_false_of_prefix_noDots (a p : List Char)
    (hpre : segsOf a <+: segsOf p)
    (hdots : noDotsHead (relSegsAway a p) = true) :
    escapeCheck (nodeRelative a p) = false := by
  unfold nodeRelative
  dsimp only
  rw [(commonLen_eq_length_iff _ _).mpr hpre, Nat.sub_self, List.replicate_zero,
    List.nil_append]
  unfold relSegsAway at hdots
  cases hdrop : (segsOf p).drop (segsOf a).length with
  | nil => rfl
  | cons s rest =>
    rw [hdrop] at hdots
    have hnd : "..".data.isPrefixOf s = false := by simpa [noDotsHead] using hdots
    have hs : s ∈ segsOf p := List.mem_of_mem_drop (hdrop ▸ List.mem_cons_self s rest)
    obtain ⟨hsne, hslash⟩ := mem_segsOf p s hs
    obtain ⟨tail, htail, htl⟩ := join_cons_decompose s rest
    unfold escapeCheck
    rw [htail]
    obtain ⟨c1, s1, rfl⟩ : ∃ c1 s1, s = c1 :: s1 := by
      cases s with
      | nil => exact absurd rfl hsne
      | cons c1 s1 => exact ⟨c1, s1, rfl⟩
    have hc1 : c1 ≠ '/' := fun h => hslash (h ▸ List.mem_cons_self c1 s1)
    have habs : isAbsolutePath ((c1 :: s1) ++ tail) = false := by
      rw [List.cons_append]
      exact isAbsolutePath_cons_ne c1 (s1 ++ tail) hc1
    have hpre2 : "..".data.isPrefixOf ((c1 :: s1) ++ tail) = false := by
      cases hval : "..".data.isPrefixOf ((c1 :: s1) ++ tail)
      · rfl
      · exfalso
        obtain ⟨t, ht⟩ := List.isPrefixOf_iff_prefix.mp hval
        cases s1 with
        | nil =>
          rcases htl with h0 | ⟨r, hr⟩
          · subst h0
            injection ht with e1 e2
            injection e2
          · subst hr
            injection ht with e1 e2
            injection e2 with e3 e4
            exact absurd e3.symm (by decide)
        | cons c2 s2 =>
          injection ht with e1 e2
          injection e2 with e3 e4
          apply Bool.eq_false_iff.mp hnd
          apply List.isPrefixOf_iff_prefix.mpr
          refine ⟨s2, ?_⟩
          rw [← e1, ← e3]
          rfl
    rw [hpre2, habs]
    simp

/-- C10 counterexample: the claim says an in-root symlink whose resolved
target lies inside the root yields the real path; but for a symlink
`/b/link` whose real target is `/b/..x` — a descendant of `/b` —
`validatePathSafe` raises instead, because the re-validation reuses the
string test `startsWith('..')` on the relative path `..x`. -/
theorem validatePathSafe_rejects_inside_symlink_cx :
    isDescendant (resolveFrom "/".data "/b".data) "/b/..x".data = true ∧
    Except.isOk (validatePathSafe "/".data
      ⟨fun q => q = "/b/link".data, fun _ => none, fun _ => false,
        fun q => q = "/b/link".data, fun _ => "/b/..x".data⟩
      "link".data "/b".data) = false := by
  constructor
  · decide
  · decide

/-- C10 (amended): given that the plain validation succeeds with `v` —
(a) a non-existent path is returned as `v`, non-existence is not an error;
(b) an existing non-symlink path is returned as `v` (the pre-resolution
validated path); (c) for an existing symlink, if the real path is a
descendant of the resolved root *and* its first relative segment does not
begin with two dots, the fully resolved real path (not the original
candidate) is returned.  (Without the two-dots proviso the symlink branch
can reject a descendant, see the counterexample.) -/
theorem validatePathSafe_characterization (cwd : List Char) (fs : FileSystem)
    (t b v : List Char) (hok : validatePath cwd t b = .ok v) :
    (fs.pathExists v = false → validatePathSafe cwd fs t b = .ok v) ∧
    (fs.pathExists v = true → fs.lstatSymlink v = false →
      validatePathSafe cwd fs t b = .ok v) ∧
    (fs.pathExists v = true → fs.lstatSymlink v = true →
      isDescendant (resolveFrom cwd b) (fs.realPath v) = true →
      noDotsHead (relSegsAway (resolveFrom cwd b) (fs.realPath v)) = true →
      validatePathSafe cwd fs t b = .ok (fs.realPath v)) := by
  refine ⟨?_, ?_, ?_⟩
  · intro hpe
    unfold validatePathSafe
    rw [hok]
    dsimp only
    rw [if_neg (by simp [hpe])]
  · intro hpe hsym
    unfold validatePathSafe
    rw [hok]
    dsimp only
    rw [if_pos hpe, if_neg (by simp [hsym])]
  · intro hpe hsym hdesc hdots
    unfold validatePathSafe
    rw [hok]
    dsimp only
    rw [if_pos hpe, if_pos hsym,
      if_neg (by simp [escapeCheck_false_of_prefix_noDots _ _
        (List.isPrefixOf_iff_prefix.mp hdesc) hdots])]

/-- C10 witness: concrete instances of all three return cases — a
non-existent path, an existing regular file, and an in-root symlink whose
real path is returned fully resolved. -/
theorem validatePathSafe_characterization_witness :
    (validatePath "/".data "link".data "/b".data = .ok "/b/link".data ∧
      isDescendant (resolveFrom "/".data "/b".data) "/b/sub/t".data = true) ∧
    validatePathSafe "/".data
      ⟨fun q => q = "/b/link".data, fun _ => none, fun _ => false,
        fun q => q = "/b/link".data, fun _ => "/b/sub/t".data⟩
      "link".data "/b".data = .ok "/b/sub/t".data ∧
    validatePathSafe "/".data
      ⟨fun q => q = "/b/plain.md".data, fun _ => none, fun _ => false,
        fun _ => false, fun p => p⟩
      "plain.md".data "/b".data = .ok "/b/plain.md".data ∧
    validatePathSafe "/".data
      ⟨fun _ => false, fun _ => none, fun _ => false, fun _ => false, fun p => p⟩
      "fresh.md".data "/b".data = .ok "/b/fresh.md".data :=
  ⟨⟨by rfl, by decide⟩,
    (validatePathSafe_characterization "/".data
      ⟨fun q => q = "/b/link".data, fun _ => none, fun _ => false,
        fun q => q = "/b/link".data, fun _ => "/b/sub/t".data⟩
      "link".data "/b".data "/b/link".data (by rfl)).2.2
      (by decide) (by decide) (by decide) (by decide),
    (validatePathSafe_characterization "/".data
      ⟨fun q => q = "/b/plain.md".data, fun _ => none, fun _ => false,
        fun _ => false, fun p => p⟩
      "plain.md".data "/b".data "/b/plain.md".data (by rfl)).2.1
      (by decide) (by decide),
    (validatePathSafe_characterization "/".data
      ⟨fun _ => false, fun _ => none, fun _ => false, fun _ => false, fun p => p⟩
      "fresh.md".data "/b".data "/b/fresh.md".data (by rfl)).1
      (by decide)⟩

/-! ## Claim C6: `diagnose` and the missing managed root -/

theorem checkStructure_ok (cwd : List Char) (fs : FileSystem) (d v : List Char)
    (hok : validatePath cwd d cwd = .ok v) :
    ∃ s, checkStructure cwd fs d = .ok s ∧ (fs.pathExists v = false → s.status = .fail) := by
  unfold checkStructure
  rw [hok]
  dsimp only
  by_cases hpe : fs.pathExists v = true
  · rw [if_neg (by simp [hpe])]
    split
    · exact ⟨_, rfl, fun h => by rw [hpe] at h; cases h⟩
    · exact ⟨_, rfl, fun h => by rw [hpe] at h; cases h⟩
  · rw [if_pos (by simp [Bool.eq_false_iff.mpr hpe])]
    exact ⟨_, rfl, fun _ => rfl⟩

/-- C6 counterexample: the claim's "for every project root,
`diagnose(projectRoot)` never throws" fails — for the root `/other` with
working directory `/home/user/proj`, `checkStructure`'s internal
`validatePath(projectDir)` (whose default base is the working directory)
raises `SecurityError`, and `diagnose` propagates it. -/
theorem diagnose_throws_outside_cwd_cx :
    Except.isOk (diagnose "/home/user/proj".data (fun _ => List.replicate 64 'a')
      ⟨fun _ => false, fun _ => none, fun _ => false, fun _ => false, fun p => p⟩
      "/other".data false) = false := by
  decide

/-- C6 (amended): whenever the managed directory joined under the project
root passes the path guard against the working directory, `diagnose` returns
(never throws) the structure record followed by the permission records
followed by the integrity record, in that fixed order; and when the managed
root is absent on disk the structure record's status is `fail` while the
permission and integrity checks are still evaluated and contribute their
records.  (For a root whose managed directory resolves outside the working
directory the structure check's guard error propagates and `diagnose` does
throw, see the counterexample.) -/
theorem diagnose_guarded_never_throws (cwd : List Char) (hash : List Char → List Char)
    (fs : FileSystem) (root : List Char) (isWin32 : Bool) (v : List Char)
    (hok : validatePath cwd (pathJoin root projectDirName) cwd = .ok v) :
    ∃ s, diagnose cwd hash fs root isWin32 =
        .ok (s :: (checkPermissions fs root isWin32 ++ [checkIntegrity cwd hash fs root])) ∧
      (fs.pathExists v = false → s.status = .fail) := by
  obtain ⟨s, hs, hfail⟩ := checkStructure_ok cwd fs (pathJoin root projectDirName) v hok
  refine ⟨s, ?_, hfail⟩
  unfold diagnose
  rw [hs]

/-- C6 witness: a concrete project whose managed root is absent — the
structure record is `fail`, and the permission and integrity records follow
in order. -/
theorem diagnose_guarded_never_throws_witness :
    validatePath "/a".data (pathJoin "/a".data projectDirName) "/a".data =
      .ok "/a/.project".data ∧
    ∃ s, diagnose "/a".data (fun _ => List.replicate 64 'a')
        ⟨fun _ => false, fun _ => none, fun _ => false, fun _ => false, fun p => p⟩
        "/a".data false =
        .ok (s :: (checkPermissions
          ⟨fun _ => false, fun _ => none, fun _ => false, fun _ => false, fun p => p⟩
          "/a".data false ++
          [checkIntegrity "/a".data (fun _ => List.replicate 64 'a')
            ⟨fun _ => false, fun _ => none, fun _ => false, fun _ => false, fun p => p⟩
            "/a".data])) ∧
      s.status = .fail := by
  constructor
  · rfl
  · obtain ⟨s, hd, hfail⟩ := diagnose_guarded_never_throws "/a".data
      (fun _ => List.replicate 64 'a')
      ⟨fun _ => false, fun _ => none, fun _ => false, fun _ => false, fun p => p⟩
      "/a".data false "/a/.project".data (by rfl)
    exact ⟨s, hd, hfail (by decide)⟩

/-! ## Claims C7 and C8: the task id allocator -/

theorem le_foldr_max (l : List Nat) (x : Nat) (hx : x ∈ l) : x ≤ l.foldr Nat.max 0 := by
  induction l with
  | nil => cases hx
  | cons a t ih =>
    rcases List.mem_cons.mp hx with h | h
    · subst h
      exact Nat.le_max_left _ _
    · exact Nat.le_trans (ih h) (Nat.le_max_right _ _)

theorem foldr_max_le (l : List Nat) (b : Nat) (h : ∀ x ∈ l, x ≤ b) :
    l.foldr Nat.max 0 ≤ b := by
  induction l with
  | nil => exact Nat.zero_le b
  | cons a t ih =>
    exact Nat.max_le.mpr ⟨h a (List.mem_cons_self a t), ih (fun x hx => h x (List.mem_cons_of_mem a hx))⟩

theorem insertionSort_ge_headD (l : List Nat) :
    ((l.insertionSort (fun a b => a ≥ b)).headD 0) = l.foldr Nat.max 0 := by
  haveI : IsTotal Nat (fun a b => a ≥ b) := ⟨fun a b => (Nat.le_total b a).imp id id⟩
  haveI : IsTrans Nat (fun a b => a ≥ b) := ⟨fun a b c hab hbc => Nat.le_trans hbc hab⟩
  cases hl : l.insertionSort (fun a b => a ≥ b) with
  | nil =>
    have hnil : l = [] := ((hl ▸ List.perm_insertionSort (fun a b => a ≥ b) l).symm).eq_nil
    rw [hnil]
    rfl
  | cons a t =>
    have hperm : (a :: t).Perm l := hl ▸ List.perm_insertionSort (fun a b => a ≥ b) l
    have hsorted : List.Sorted (fun x y => x ≥ y) (a :: t) :=
      hl ▸ List.sorted_insertionSort (fun a b => a ≥ b) l
    show a = l.foldr Nat.max 0
    apply Nat.le_antisymm
    · exact le_foldr_max l a (hperm.subset (List.mem_cons_self a t))
    · apply foldr_max_le
      intro x hx
      rcases List.mem_cons.mp (hperm.symm.subset hx) with h | h
      · exact Nat.le_of_eq h
      · exact (List.sorted_cons.mp hsorted).1 x h

/-- C7 counterexample: the claim makes the candidate depend on "the last
identifier the allocator instance handed out", but the allocator has no such
state — its candidate is a function of the directory listing alone.  After
the instance hands out `002` (first conjunct), the claim's formula demands
`max(0, 2) + 1 = 003` on an emptied backlog (archival moves files out), yet
the code computes `001`. -/
theorem getNextTaskId_ignores_last_handed_out_cx :
    (initTask [("TASK-001-a.md".data, "c".data)] "b".data "body".data).1 = "002".data ∧
    getNextTaskId [] = "001".data ∧
    "001".data ≠ padStart3 (Nat.max 0 2 + 1) := by
  refine ⟨by decide, by decide, by decide⟩

/-- C7 (amended): the allocator's candidate identifier is one plus the
maximum of the numeric identifiers parsed from the filenames matching the
task naming pattern (0 when none), zero-padded to three digits — with no
contribution from previously handed-out identifiers; in particular a backlog
of `TASK-001-x.md` and `TASK-002-y.md` yields `003`. -/
theorem getNextTaskId_max_plus_one :
    (∀ files, getNextTaskId files = padStart3 ((files.map parseTaskId).foldr Nat.max 0 + 1)) ∧
    getNextTaskId ["TASK-001-x.md".data, "TASK-002-y.md".data] = "003".data := by
  constructor
  · intro files
    unfold getNextTaskId
    dsimp only
    rw [insertionSort_ge_headD]
  · decide

/-- C8: evaluating the current `initTask` at the failing input — two
concurrent calls whose directory reads both complete before either write,
against a backlog holding `TASK-001-x.md` — both calls allocate the same
identifier `002`, and the plain non-exclusive write lets the second call
overwrite the first: only two files remain (one write lost) and the
surviving `TASK-002-task.md` holds the second caller's content.  This
contradicts the claimed exclusive atomic create with bounded retry and its
N-distinct-identifiers consequence; the repository's own TASK-006 documents
it as the TOCTOU bug to fix. -/
theorem initTask_race_lost_write :
    (twoConcurrentInitTask [("TASK-001-x.md".data, "c".data)]
      "task".data "A".data "task".data "B".data).1 = ("002".data, "002".data) ∧
    (twoConcurrentInitTask [("TASK-001-x.md".data, "c".data)]
      "task".data "A".data "task".data "B".data).2.length = 2 ∧
    (twoConcurrentInitTask [("TASK-001-x.md".data, "c".data)]
      "task".data "A".data "task".data "B".data).2.lookup "TASK-002-task.md".data =
      some "B".data := by
  refine ⟨by decide, by decide, by decide⟩

/-! ## Claim C9: the update engine skips modified files untouched -/

/-- C9: whenever the scanner classifies a target as `modified`, the update
engine under the default policy leaves the entire filesystem untouched (the
file's on-disk content is byte-identical before and after) and reports
`skipped`; only the explicit force-overwrite policy flag changes the
decision to an overwrite. -/
theorem updateOne_modified_skipped (cwd : List Char) (hash : List Char → List Char)
    (version : List Char) (fs : FileSystem) (root rel newContent : List Char)
    (hmod : (scanOne cwd hash fs root rel).status = .modified) :
    updateOne cwd hash version false fs root rel newContent = (fs, .skipped) ∧
    (updateOne cwd hash version true fs root rel newContent).2 = .updated := by
  constructor
  · unfold updateOne
    dsimp only
    rw [hmod]
    rfl
  · unfold updateOne
    dsimp only
    rw [hmod]
    rfl

/-- C9 witness: a concrete signed-then-edited file classifies as `modified`,
the default-policy update returns the filesystem unchanged with decision
`skipped`, and the force flag yields `updated`. -/
theorem updateOne_modified_skipped_witness :
    (scanOne "/".data
      (fun s => List.replicate 64 (Char.ofNat ('a'.toNat + s.length % 6)))
      ⟨fun q => q = "/p/CLAUDE.md".data,
        fun q => if q = "/p/CLAUDE.md".data then
          some (sign (fun s => List.replicate 64 (Char.ofNat ('a'.toNat + s.length % 6)))
            "1.0.0".data "hello".data ++ '\n' :: "# mod".data)
          else none,
        fun _ => false, fun _ => false, fun p => p⟩
      "/p".data "CLAUDE.md".data).status = .modified ∧
    updateOne "/".data
      (fun s => List.replicate 64 (Char.ofNat ('a'.toNat + s.length % 6)))
      "1.0.0".data false
      ⟨fun q => q = "/p/CLAUDE.md".data,
        fun q => if q = "/p/CLAUDE.md".data then
          some (sign (fun s => List.replicate 64 (Char.ofNat ('a'.toNat + s.length % 6)))
            "1.0.0".data "hello".data ++ '\n' :: "# mod".data)
          else none,
        fun _ => false, fun _ => false, fun p => p⟩
      "/p".data "CLAUDE.md".data "new".data =
      (⟨fun q => q = "/p/CLAUDE.md".data,
        fun q => if q = "/p/CLAUDE.md".data then
          some (sign (fun s => List.replicate 64 (Char.ofNat ('a'.toNat + s.length % 6)))
            "1.0.0".data "hello".data ++ '\n' :: "# mod".data)
          else none,
        fun _ => false, fun _ => false, fun p => p⟩, .skipped) := by
  constructor
  · decide
  · exact (updateOne_modified_skipped "/".data
      (fun s => List.replicate 64 (Char.ofNat ('a'.toNat + s.length % 6)))
      "1.0.0".data
      ⟨fun q => q = "/p/CLAUDE.md".data,
        fun q => if q = "/p/CLAUDE.md".data then
          some (sign (fun s => List.replicate 64 (Char.ofNat ('a'.toNat + s.length % 6)))
            "1.0.0".data "hello".data ++ '\n' :: "# mod".data)
          else none,
        fun _ => false, fun _ => false, fun p => p⟩
      "/p".data "CLAUDE.md".data "new".data (by decide)).1

end Aipim
